import Mathlib

/-!
Shallow embedding of the news-aggregation pipeline:

* `NewsCrawler.normalize_url`, `NewsCrawler.search_news`,
  `NewsCrawler.filter_relevant_news` and the aggregation loop of `main`
  (dedup via a seen-URL set, then relevance filtering) from `TEST.py`;
* `get_google_news_rss_url` from `PAGES/TEST2.py`;
* the view layer of `main` (search/keyword/source filters, sort,
  pagination) from `TEST.py`, with an explicit heap so that the in-place
  `list.sort` on the copied list is distinguishable from a mutation of
  the session collection.

Strings are modelled as Lean `String`s (lists of Unicode scalar values,
as in Python 3).  Python's `str.lower` is modelled by ASCII case folding,
which agrees with CPython on every character appearing in the sources
and in the theorems below (Hangul and ASCII).
-/

namespace News

/-! ### Python string primitives -/

/-- ASCII case folding of one character; agrees with Python `str.lower`
on ASCII and on unicased scripts such as Hangul. -/
def pyLowerChar (c : Char) : Char :=
  if 65 ≤ c.toNat ∧ c.toNat ≤ 90 then Char.ofNat (c.toNat + 32) else c

/-- Model of Python `str.lower` (restricted to ASCII case mapping). -/
def pyLower (s : String) : String := ⟨s.data.map pyLowerChar⟩

/-- Contiguous-sublist test on scalar-value lists. -/
def hasSub (n : List Char) : List Char → Bool
  | [] => n.isEmpty
  | c :: t => n.isPrefixOf (c :: t) || hasSub n t

/-- Model of Python `needle in hay` for strings: contiguous substring test. -/
def pyIn (needle hay : String) : Bool := hasSub needle.data hay.data

/-! ### urllib.parse.urlparse, restricted to the fields `normalize_url` reads

The embedding follows CPython `urllib/parse.py` (`urlsplit` plus the
params split of `urlparse`): left-strip of C0-control/space characters,
removal of tab/CR/LF, scheme detection, netloc extraction up to the
first of `/?#`, the mismatched-bracket `ValueError`, fragment split,
query split, and the `;params` split on the last path segment.  The
NFKC netloc check (`_checknetloc`, which may raise on non-ASCII
netlocs) and the bracketed-host validation of newer CPython are not
modelled: the success-path theorem for C4 therefore hypothesizes an
ASCII, bracket-free host — the domain on which `_checknetloc` returns
immediately in every CPython version, so there the embedding agrees
with `urlparse` exactly.  Elsewhere in this development `normalize_url`
enters only as an opaque deterministic key. -/

/-- C0-control characters and space (the WHATWG strip set). -/
def c0OrSpace (c : Char) : Bool := c.toNat ≤ 32

/-- The characters CPython removes from a URL before parsing. -/
def isTabCrLf (c : Char) : Bool := c = '\t' || c = '\r' || c = '\n'

/-- Split a list at the first occurrence of `c` (occurrence excluded). -/
def splitOnFirst (c : Char) : List Char → Option (List Char × List Char)
  | [] => none
  | x :: xs =>
    if x = c then some ([], xs)
    else
      match splitOnFirst c xs with
      | none => none
      | some (a, b) => some (x :: a, b)

/-- Split a list at the last occurrence of `c` (occurrence excluded). -/
def splitOnLast (c : Char) : List Char → Option (List Char × List Char)
  | [] => none
  | x :: xs =>
    match splitOnLast c xs with
    | some (a, b) => some (x :: a, b)
    | none => if x = c then some ([], xs) else none

/-- ASCII letter (Python `str.isascii() and str.isalpha()` on one char). -/
def asciiAlpha (c : Char) : Bool :=
  (65 ≤ c.toNat && c.toNat ≤ 90) || (97 ≤ c.toNat && c.toNat ≤ 122)

/-- ASCII digit. -/
def asciiDigit (c : Char) : Bool := 48 ≤ c.toNat && c.toNat ≤ 57

/-- CPython `scheme_chars`: letters, digits and `+-.`. -/
def isSchemeChar (c : Char) : Bool :=
  asciiAlpha c || asciiDigit c || c = '+' || c = '-' || c = '.'

/-- True away from the netloc delimiters `/`, `?`, `#`. -/
def notDelim (c : Char) : Bool := !(c = '/' || c = '?' || c = '#')

/-- Scheme detection of `urlsplit`: if the text before the first `:` is a
nonempty run of scheme characters starting with an ASCII letter, it is
the (lower-cased) scheme and is stripped. -/
def splitScheme (url : List Char) : List Char × List Char :=
  match splitOnFirst ':' url with
  | none => ([], url)
  | some (before, after) =>
    match before with
    | [] => ([], url)
    | c :: rest =>
      if asciiAlpha c && (c :: rest).all isSchemeChar then
        ((c :: rest).map pyLowerChar, after)
      else ([], url)

/-- Netloc extraction: when the remainder starts with `//`, the netloc
runs to the first of `/?#`. -/
def splitNetloc (url : List Char) : List Char × List Char :=
  match url with
  | a :: b :: rest =>
    if a = '/' ∧ b = '/' then (rest.takeWhile notDelim, rest.dropWhile notDelim)
    else ([], url)
  | _ => ([], url)

/-- Schemes for which `urlparse` splits `;params` off the path. -/
def uses_params : List String :=
  ["", "ftp", "hdl", "prospero", "http", "imap", "https", "shttp",
   "rtsp", "rtspu", "sip", "sips", "mms", "sftp", "tel"]

/-- `_splitparams`: drop `;params` from the last path segment. -/
def splitParamsPath (p : List Char) : List Char :=
  match splitOnLast '/' p with
  | some (a, b) =>
    match splitOnFirst ';' b with
    | some (b1, _) => a ++ '/' :: b1
    | none => p
  | none =>
    match splitOnFirst ';' p with
    | some (p1, _) => p1
    | none => p.dropLast

/-- Result of `urlparse` restricted to the components the program reads. -/
structure SplitResult where
  scheme : List Char
  netloc : List Char
  path : List Char
  query : List Char
  fragment : List Char
deriving DecidableEq

/-- `urlsplit` over scalar-value lists; `.error` models the
`ValueError` raised on a mismatched IPv6 bracket. -/
def urlsplitChars (url0 : List Char) : Except String SplitResult :=
  let url1 := (url0.dropWhile c0OrSpace).filter (fun c => !isTabCrLf c)
  let s := splitScheme url1
  let n := splitNetloc s.2
  if (n.1.contains '[' && !n.1.contains ']')
      || (n.1.contains ']' && !n.1.contains '[') then
    .error "Invalid IPv6 URL"
  else
    let f := match splitOnFirst '#' n.2 with
      | some (a, b) => (a, b)
      | none => (n.2, ([] : List Char))
    let q := match splitOnFirst '?' f.1 with
      | some (a, b) => (a, b)
      | none => (f.1, ([] : List Char))
    .ok ⟨s.1, n.1, q.1, q.2, f.2⟩

/-- `urlparse`: `urlsplit` plus the `;params` split on the path. -/
def pyUrlparse (url : String) : Except String SplitResult :=
  match urlsplitChars url.data with
  | .error e => .error e
  | .ok r =>
    let path2 :=
      if uses_params.contains (String.mk r.scheme) && r.path.contains ';' then
        splitParamsPath r.path
      else r.path
    .ok { r with path := path2 }

/-- `NewsCrawler.normalize_url`: `f"{parsed.netloc}{parsed.path}"`, with
the bare `except:` returning the input unchanged. -/
def normalize_url (url : String) : String :=
  match pyUrlparse url with
  | .error _ => url
  | .ok r => String.mk (r.netloc ++ r.path)

/-! ### Fetch boundary and article construction (`NewsCrawler.search_news`) -/

/-- A raw feed entry as exposed by the fetch boundary; every field is
optional (`entry.get(..., '')` supplies the default). -/
structure Entry where
  title : Option String
  link : Option String
  published : Option String
  summary : Option String
  source : Option String
deriving DecidableEq

/-- The article record built in `search_news` (`crawled_at` receives the
caller-supplied clock reading `now`). -/
structure Article where
  title : String
  link : String
  published : String
  summary : String
  source : String
  keyword : String
  crawled_at : String
  normalized_url : String
deriving DecidableEq

/-- One iteration of the entry loop of `search_news`. -/
def mkArticle (now keyword : String) (e : Entry) : Article :=
  let link := e.link.getD ""
  { title := e.title.getD ""
    link := link
    published := e.published.getD ""
    summary := e.summary.getD ""
    source := e.source.getD ""
    keyword := keyword
    crawled_at := now
    normalized_url := normalize_url link }

/-- The feed URL built by `search_news` in `TEST.py`: the keyword is
interpolated into the f-string as-is, with no percent-encoding. -/
def search_url (keyword : String) : String :=
  "https://news.google.com/rss" ++ "/search?q=" ++ keyword ++ "&hl=ko&gl=KR&ceid=KR:ko"

/-- `NewsCrawler.search_news`: fetch the feed for one keyword.  `fetch`
is the external `feedparser.parse` boundary; `.error` models any raised
exception, which the surrounding `try/except` turns into `[]`. -/
def search_news (fetch : String → Except String (List Entry)) (now keyword : String)
    (max_results : Nat) : List Article :=
  match fetch (search_url keyword) with
  | .error _ => []
  | .ok entries =>
    if entries.isEmpty then []
    else (entries.take max_results).map (mkArticle now keyword)

/-! ### Relevance filter (`NewsCrawler.filter_relevant_news`) -/

/-- The fixed relevance keyword list of `filter_relevant_news`. -/
def relevant_keywords : List String :=
  ["동반성장", "공정거래", "실적평가", "이행평가",
   "동반성장위원회", "공정거래위원회", "공정거래협약",
   "중소기업", "대기업", "지수", "평가"]

/-- The per-article test of `filter_relevant_news`: some fixed keyword
occurs in the lower-cased title or in the lower-cased summary. -/
def isRelevantArticle (a : Article) : Bool :=
  relevant_keywords.any fun kw => pyIn kw (pyLower a.title) || pyIn kw (pyLower a.summary)

/-- `NewsCrawler.filter_relevant_news`. -/
def filter_relevant_news (articles : List Article) : List Article :=
  articles.filter isRelevantArticle

/-! ### Aggregation loop of `main` (lines 156-176 of `TEST.py`) -/

/-- The inner `for article in articles` loop: skip a candidate whose
normalized URL was already seen (when dedup is on), record the URL,
append to the accumulated collection.  The Python `set` is modelled as
the list of recorded URLs; membership is all the code observes. -/
def processArticles (dedup : Bool) : List Article → List Article → List String →
    List Article × List String
  | [], acc, seen => (acc, seen)
  | a :: rest, acc, seen =>
    if dedup && seen.contains a.normalized_url then
      processArticles dedup rest acc seen
    else
      processArticles dedup rest (acc ++ [a])
        (if dedup then a.normalized_url :: seen else seen)

/-- The keyword loop of `main`: fetch each keyword in order and feed the
candidates through `processArticles`, then (when enabled) apply the
relevance filter to the accumulated collection. -/
def runCrawl (fetch : String → Except String (List Entry)) (now : String)
    (max_results : Nat) (filterRelevant dedup : Bool) (keywords : List String) :
    List Article :=
  let r := keywords.foldl
    (fun st kw => processArticles dedup (search_news fetch now kw max_results) st.1 st.2)
    (([] : List Article), ([] : List String))
  if filterRelevant then filter_relevant_news r.1 else r.1

/-- The flattened candidate stream of one run: fetch results in keyword
order (outer) and per-keyword arrival order (inner). -/
def candidates (fetch : String → Except String (List Entry)) (now : String)
    (max_results : Nat) (keywords : List String) : List Article :=
  keywords.flatMap fun kw => search_news fetch now kw max_results

/-! ### View layer of `main` (lines 228-256 of `TEST.py`) -/

/-- Search-box filter: case-insensitive containment in title or summary;
an empty search term is falsy and skips the filter. -/
def searchMatch (s : String) (a : Article) : Bool :=
  pyIn (pyLower s) (pyLower a.title) || pyIn (pyLower s) (pyLower a.summary)

/-- `if search_term:` filter step. -/
def applySearch (s : String) (l : List Article) : List Article :=
  if s ≠ "" then l.filter (searchMatch s) else l

/-- Keyword filter step (sentinel `"전체"` = all). -/
def applyKeyword (kf : String) (l : List Article) : List Article :=
  if kf ≠ "전체" then l.filter (fun a => a.keyword == kf) else l

/-- Source filter step (sentinel `"전체"` = all). -/
def applySource (sf : String) (l : List Article) : List Article :=
  if sf ≠ "전체" then l.filter (fun a => a.source == sf) else l

/-- The three filter steps in the order the code applies them. -/
def applyFilters (s kf sf : String) (l : List Article) : List Article :=
  applySource sf (applyKeyword kf (applySearch s l))

/-- Stable insertion into a sorted list: a later element lands after
every earlier element it ties with. -/
def insertStable (le : Article → Article → Bool) (x : Article) :
    List Article → List Article
  | [] => [x]
  | y :: t => if le y x then y :: insertStable le x t else x :: y :: t

/-- Stable sort by a total Boolean preorder.  A stable sort's output is
uniquely determined by the key order and the input order of ties, so
this models Python's `list.sort` for the total key orders used below. -/
def sortStable (le : Article → Article → Bool) (l : List Article) : List Article :=
  l.foldl (fun acc x => insertStable le x acc) []

/-- The stable in-place sort of the view: `list.sort` with the selected
key (`최신순` = `published` descending via `reverse=True`, `제목순` =
title ascending, `출처순` = source ascending); other labels leave the
list as is. -/
def sortArticles (opt : String) (l : List Article) : List Article :=
  if opt = "최신순" then sortStable (fun a b => decide (b.published ≤ a.published)) l
  else if opt = "제목순" then sortStable (fun a b => decide (a.title ≤ b.title)) l
  else if opt = "출처순" then sortStable (fun a b => decide (a.source ≤ b.source)) l
  else l

/-- `items_per_page = 10` (line 250). -/
def items_per_page : Nat := 10

/-- `total_pages = (len(filtered_data) + items_per_page - 1) // items_per_page`
(line 251), generalized over the page size. -/
def totalPages (count pageSize : Nat) : Nat := (count + pageSize - 1) / pageSize

/-- The page slice of lines 254-256. -/
def pageSlice (l : List Article) (page : Nat) : List Article :=
  (l.drop ((page - 1) * items_per_page)).take items_per_page

/-! ### The view block with explicit list objects

Python lists are mutable objects: `filtered_data = news_data.copy()`
allocates a fresh list, each list comprehension rebinds the name to a
fresh list, and `filtered_data.sort(...)` mutates the object in place.
To make the claim that the view never mutates the session collection
meaningful, the view block is also modelled over an explicit heap of
list objects, with references as indices. -/

/-- A heap of Python list objects; a reference is an index. -/
abbrev Heap : Type := List (List Article)

/-- Allocate a fresh list object, returning the new heap and reference. -/
def halloc (h : Heap) (v : List Article) : Heap × Nat := (h ++ [v], h.length)

/-- Read a list object. -/
def hget (h : Heap) (r : Nat) : List Article := h.getD r []

/-- Overwrite a list object in place. -/
def hset (h : Heap) (r : Nat) (v : List Article) : Heap := h.set r v

/-- `if cond: name = <fresh list>` — rebind to a fresh object when the
condition holds, keep the old reference otherwise. -/
def condAlloc (cond : Bool) (h : Heap) (r : Nat) (v : List Article) : Heap × Nat :=
  if cond then halloc h v else (h, r)

/-- Parameters of one rendering of the view block. -/
structure ViewParams where
  search_term : String
  keyword_filter : String
  source_filter : String
  sort_option : String
  page : Nat

/-- Lines 228-256 of `TEST.py` over the heap: copy the session list,
filter (each comprehension allocates a fresh list), sort in place,
paginate.  Returns the final heap, the page items and the page count. -/
def viewBlock (h : Heap) (newsRef : Nat) (p : ViewParams) :
    Heap × List Article × Nat :=
  let a1 := halloc h (hget h newsRef)
  let a2 := condAlloc (p.search_term ≠ "") a1.1 a1.2
    ((hget a1.1 a1.2).filter (searchMatch p.search_term))
  let a3 := condAlloc (p.keyword_filter ≠ "전체") a2.1 a2.2
    ((hget a2.1 a2.2).filter (fun a => a.keyword == p.keyword_filter))
  let a4 := condAlloc (p.source_filter ≠ "전체") a3.1 a3.2
    ((hget a3.1 a3.2).filter (fun a => a.source == p.source_filter))
  let h5 := hset a4.1 a4.2 (sortArticles p.sort_option (hget a4.1 a4.2))
  let fd := hget h5 a4.2
  (h5, pageSlice fd p.page, totalPages fd.length items_per_page)

/-! ### Query builder of `PAGES/TEST2.py` -/

/-- UTF-8 encoding of one scalar value, as a list of byte values. -/
def utf8Bytes (c : Char) : List Nat :=
  if c.toNat < 128 then [c.toNat]
  else if c.toNat < 2048 then
    [192 ||| (c.toNat >>> 6), 128 ||| (c.toNat &&& 63)]
  else if c.toNat < 65536 then
    [224 ||| (c.toNat >>> 12), 128 ||| ((c.toNat >>> 6) &&& 63), 128 ||| (c.toNat &&& 63)]
  else
    [240 ||| (c.toNat >>> 18), 128 ||| ((c.toNat >>> 12) &&& 63),
     128 ||| ((c.toNat >>> 6) &&& 63), 128 ||| (c.toNat &&& 63)]

/-- Bytes `urllib.parse.quote` leaves unescaped with the default
`safe='/'`: ASCII letters, digits, `_.-~` and `/`. -/
def quoteSafeByte (b : Nat) : Bool :=
  (65 ≤ b && b ≤ 90) || (97 ≤ b && b ≤ 122) || (48 ≤ b && b ≤ 57) ||
    b = 95 || b = 46 || b = 45 || b = 126 || b = 47

/-- Upper-case hexadecimal digit. -/
def hexUpper (n : Nat) : Char := "0123456789ABCDEF".data.getD n '0'

/-- One byte of `quote` output: the character itself when safe,
`%XX` otherwise. -/
def quoteByte (b : Nat) : List Char :=
  if quoteSafeByte b then [Char.ofNat b]
  else ['%', hexUpper (b / 16), hexUpper (b % 16)]

/-- `urllib.parse.quote` with the default `safe='/'`: UTF-8 encode, then
percent-escape every unsafe byte. -/
def pyQuote (s : String) : String :=
  ⟨(s.data.flatMap utf8Bytes).flatMap quoteByte⟩

/-- `get_google_news_rss_url` from `PAGES/TEST2.py` (defaults
`hl='ko'`, `gl='KR'`, `num_results=100` are passed explicitly here). -/
def get_google_news_rss_url (query hl gl : String) (num_results : Nat) : String :=
  "https://news.google.com/rss/search" ++
    ("?q=" ++ pyQuote query ++ "&hl=" ++ hl ++ "&gl=" ++ gl ++
     "&ceid=" ++ gl ++ ":" ++ hl ++ "&num=" ++ toString num_results)

/-- A character that can appear in `pyQuote` output: a safe byte's
character, `%`, or an upper-case hex digit. -/
def quoteOutputChar (c : Char) : Bool :=
  quoteSafeByte c.toNat || c = '%' ||
    (48 ≤ c.toNat && c.toNat ≤ 57) || (65 ≤ c.toNat && c.toNat ≤ 70)

/-! ### Concrete entries, fetches and articles used in counterexamples
and witnesses -/

/-- A candidate with no relevance-term occurrence. -/
def eIrrelevantA : Entry :=
  ⟨some "스포츠 소식", some "http://ex.com/a?utm=1", some "Wed", some "", some "S1"⟩

/-- A candidate matching the relevance terms, at the same normalized URL
as `eIrrelevantA`. -/
def eRelevantB : Entry :=
  ⟨some "동반성장 뉴스", some "http://ex.com/a?utm=2", some "Thu", some "", some "S2"⟩

/-- Fetch boundary where keyword `A` yields the irrelevant candidate and
keyword `B` the relevant duplicate. -/
def fetchDup : String → Except String (List Entry) := fun u =>
  if u = search_url "A" then .ok [eIrrelevantA]
  else if u = search_url "B" then .ok [eRelevantB]
  else .error "network error"

/-- Scenario entry `u1`. -/
def e1 : Entry := ⟨some "t1", some "http://s.com/u1", some "p1", some "", some ""⟩

/-- Scenario entry `u2` as fetched under keyword `A`. -/
def e2 : Entry := ⟨some "t2", some "http://s.com/u2?x=1", some "p2", some "", some ""⟩

/-- Scenario entry `u2` as fetched under keyword `B` (same normalized URL). -/
def e2dup : Entry := ⟨some "t2dup", some "http://s.com/u2?x=2", some "p3", some "", some ""⟩

/-- Scenario entry `u3`. -/
def e3 : Entry := ⟨some "t3", some "http://s.com/u3", some "p4", some "", some ""⟩

/-- The spec scenario fetch: `A` yields `[u1,u2]`, `B` yields `[u2,u3]`. -/
def fetchAB : String → Except String (List Entry) := fun u =>
  if u = search_url "A" then .ok [e1, e2]
  else if u = search_url "B" then .ok [e2dup, e3]
  else .error "network error"

/-- Fetch boundary failing for keyword `X` and succeeding for `A`. -/
def fetchXFail : String → Except String (List Entry) := fun u =>
  if u = search_url "X" then .error "boom"
  else if u = search_url "A" then .ok [e1]
  else .error "network error"

/-- An article with every field empty. -/
def blankArticle : Article := ⟨"", "", "", "", "", "", "", ""⟩

/-- The relevance term `동반성장` spans the title/summary boundary:
it occurs in the concatenation but in neither field alone. -/
def artConcatBoundary : Article := { blankArticle with title := "동반", summary := "성장" }

/-- Article judged on its title alone (empty summary). -/
def artTitleOnly : Article := { blankArticle with title := "대기업 뉴스" }

/-- The spec's relevance-filter scenario article. -/
def artTitleSummary : Article :=
  { blankArticle with title := "대기업 뉴스", summary := "동반성장 지수 발표" }

/-- A one-object heap for the view witness. -/
def heap0 : Heap := [[artTitleOnly, artTitleSummary]]

/-- View parameters for the view witness. -/
def params0 : ViewParams := ⟨"", "전체", "전체", "최신순", 1⟩

/-- View parameters whose search term matches no collected article. -/
def paramsNoMatch : ViewParams := ⟨"zzz", "전체", "전체", "최신순", 1⟩

/-! ## Helper lemmas about the aggregation loop -/

theorem contains_true_iff {l : List String} {a : String} :
    l.contains a = true ↔ a ∈ l := List.elem_iff

theorem contains_false_iff {l : List String} {a : String} :
    l.contains a = false ↔ a ∉ l := by
  rw [← Bool.not_eq_true, not_iff_not]
  exact contains_true_iff

/-- The accumulator of the candidate loop only collects appends. -/
theorem processArticles_acc (d : Bool) (l : List Article) : ∀ acc seen,
    processArticles d l acc seen =
      (acc ++ (processArticles d l [] seen).1, (processArticles d l [] seen).2) := by
  induction l with
  | nil => intro acc seen; simp [processArticles]
  | cons a rest ih =>
    intro acc seen
    by_cases h : (d && seen.contains a.normalized_url) = true
    · simp only [processArticles, if_pos h]
      exact ih acc seen
    · simp only [processArticles, if_neg h]
      rw [ih (acc ++ [a]), ih ([] ++ [a])]
      simp [List.append_assoc]

/-- Processing a concatenation processes the pieces in order. -/
theorem processArticles_append (d : Bool) (l1 l2 : List Article) : ∀ acc seen,
    processArticles d (l1 ++ l2) acc seen =
      processArticles d l2 (processArticles d l1 acc seen).1
        (processArticles d l1 acc seen).2 := by
  induction l1 with
  | nil => intro acc seen; simp [processArticles]
  | cons a rest ih =>
    intro acc seen
    by_cases h : (d && seen.contains a.normalized_url) = true
    · simp only [List.cons_append, processArticles, if_pos h]
      exact ih acc seen
    · simp only [List.cons_append, processArticles, if_neg h]
      exact ih _ _

/-- The keyword fold of `main` equals one pass of `processArticles` over
the flattened candidate stream. -/
theorem crawl_foldl_eq (d : Bool) (f : String → List Article) (ks : List String) :
    ∀ st : List Article × List String,
      ks.foldl (fun st kw => processArticles d (f kw) st.1 st.2) st =
        processArticles d (ks.flatMap f) st.1 st.2 := by
  induction ks with
  | nil => intro st; simp [processArticles]
  | cons k ks ih =>
    intro st
    simp only [List.foldl_cons, List.flatMap_cons, processArticles_append]
    exact ih _

/-- `runCrawl` in terms of the flattened candidate stream. -/
theorem runCrawl_eq (fetch : String → Except String (List Entry)) (now : String)
    (m : Nat) (fr d : Bool) (ks : List String) :
    runCrawl fetch now m fr d ks =
      if fr then
        filter_relevant_news (processArticles d (candidates fetch now m ks) [] []).1
      else (processArticles d (candidates fetch now m ks) [] []).1 := by
  unfold runCrawl candidates
  rw [crawl_foldl_eq]

/-- With dedup on, the collected URLs stay distinct. -/
theorem processArticles_nodup (l : List Article) : ∀ acc seen,
    (∀ a ∈ acc, a.normalized_url ∈ seen) →
    (acc.map Article.normalized_url).Nodup →
    ((processArticles true l acc seen).1.map Article.normalized_url).Nodup := by
  induction l with
  | nil => intro acc seen _ h2; simpa [processArticles] using h2
  | cons a rest ih =>
    intro acc seen h1 h2
    by_cases hc : a.normalized_url ∈ seen
    · have ht : (true && seen.contains a.normalized_url) = true := by simpa using hc
      simp only [processArticles, if_pos ht]
      exact ih acc seen h1 h2
    · have hf : ¬ (true && seen.contains a.normalized_url) = true := by simpa using hc
      simp only [processArticles, if_neg hf]
      refine ih (acc ++ [a]) (a.normalized_url :: seen) ?_ ?_
      · intro b hb
        rcases List.mem_append.1 hb with hb | hb
        · exact List.mem_cons_of_mem _ (h1 b hb)
        · simp only [List.mem_singleton] at hb
          subst hb
          exact List.mem_cons_self _ _
      · rw [List.map_append]
        simp only [List.map_cons, List.map_nil]
        rw [List.nodup_append]
        refine ⟨h2, List.nodup_singleton _, ?_⟩
        intro u hu hu1
        simp only [List.mem_singleton] at hu1
        subst hu1
        obtain ⟨b, hb, hbu⟩ := List.mem_map.1 hu
        exact hc (hbu ▸ h1 b hb)

/-- With dedup on, every collected article is the first candidate in the
stream carrying its normalized URL (among URLs not yet seen). -/
theorem processArticles_find? (l : List Article) : ∀ seen a,
    a ∈ (processArticles true l [] seen).1 →
    a.normalized_url ∉ seen ∧
      l.find? (fun c => c.normalized_url == a.normalized_url) = some a := by
  induction l with
  | nil => intro seen a ha; simp [processArticles] at ha
  | cons x rest ih =>
    intro seen a ha
    by_cases hc : x.normalized_url ∈ seen
    · have ht : (true && seen.contains x.normalized_url) = true := by simpa using hc
      simp only [processArticles, if_pos ht] at ha
      obtain ⟨h1, h2⟩ := ih seen a ha
      refine ⟨h1, ?_⟩
      have hb : ¬ (x.normalized_url == a.normalized_url) = true := by
        simp only [beq_iff_eq]
        intro he
        exact h1 (he ▸ hc)
      rw [@List.find?_cons_of_neg _ (fun c => c.normalized_url == a.normalized_url) x rest hb]
      exact h2
    · have hf : ¬ (true && seen.contains x.normalized_url) = true := by simpa using hc
      simp only [processArticles, if_neg hf] at ha
      rw [processArticles_acc] at ha
      simp only [List.nil_append] at ha
      rcases List.mem_append.1 ha with hax | hat
      · simp only [List.mem_singleton] at hax
        subst hax
        exact ⟨hc, List.find?_cons_of_pos _ (by simp)⟩
      · obtain ⟨h1, h2⟩ := ih (x.normalized_url :: seen) a hat
        have hne : a.normalized_url ≠ x.normalized_url := by
          intro he
          exact h1 (by rw [he]; exact List.mem_cons_self _ _)
        refine ⟨fun hm => h1 (List.mem_cons_of_mem _ hm), ?_⟩
        have hb : ¬ (x.normalized_url == a.normalized_url) = true := by
          simp only [beq_iff_eq]
          exact fun he => hne he.symm
        rw [@List.find?_cons_of_neg _ (fun c => c.normalized_url == a.normalized_url) x rest hb]
        exact h2

/-- With or without dedup, the collected list is a subsequence of the
candidate stream. -/
theorem processArticles_sublist (d : Bool) (l : List Article) : ∀ seen,
    (processArticles d l [] seen).1.Sublist l := by
  induction l with
  | nil => intro seen; simp [processArticles]
  | cons x rest ih =>
    intro seen
    by_cases h : (d && seen.contains x.normalized_url) = true
    · simp only [processArticles, if_pos h]
      exact (ih seen).cons x
    · simp only [processArticles, if_neg h]
      rw [processArticles_acc]
      simp only [List.nil_append]
      exact (ih _).cons₂ x

/-- Every article produced by `search_news` carries the query keyword. -/
theorem search_news_keyword (fetch : String → Except String (List Entry))
    (now k : String) (m : Nat) (a : Article)
    (h : a ∈ search_news fetch now k m) : a.keyword = k := by
  unfold search_news at h
  cases hf : fetch (search_url k) with
  | error e => rw [hf] at h; simp at h
  | ok es =>
    rw [hf] at h
    have h2 : a ∈ (if es.isEmpty then [] else (es.take m).map (mkArticle now k)) := h
    by_cases he : es.isEmpty
    · simp [he] at h2
    · rw [if_neg he] at h2
      obtain ⟨e, _, rfl⟩ := List.mem_map.1 h2
      rfl

/-- `find?` skips a block with no match. -/
theorem find?_append_left_none {α : Type} {p : α → Bool} {l₁ l₂ : List α}
    (h : ∀ x ∈ l₁, p x = false) :
    (l₁ ++ l₂).find? p = l₂.find? p := by
  rw [List.find?_append]
  have : l₁.find? p = none := List.find?_eq_none.mpr (by intro x hx; simp [h x hx])
  rw [this, Option.none_or]

/-- `find?` stays in a block containing a match. -/
theorem find?_append_left_found {α : Type} {p : α → Bool} {l₁ l₂ : List α}
    (h : ∃ x ∈ l₁, p x = true) :
    (l₁ ++ l₂).find? p = l₁.find? p := by
  rw [List.find?_append]
  have hs : (l₁.find? p).isSome = true := List.find?_isSome.mpr h
  cases ho : l₁.find? p with
  | none => rw [ho] at hs; simp at hs
  | some y => rfl

/-- URL-distinctness of a list follows from `Nodup` of the mapped URLs. -/
theorem pairwise_ne_of_nodup_map {l : List Article}
    (h : (l.map Article.normalized_url).Nodup) :
    l.Pairwise (fun a b => a.normalized_url ≠ b.normalized_url) := by
  have h2 : (l.map Article.normalized_url).Pairwise (· ≠ ·) := h
  exact List.pairwise_map.mp h2

/-! ## Claims -/

/-- C1: for every aggregation run with `dedup_enabled = true`, over any
fetch boundary, clock, per-keyword cap, relevance-filter toggle and
keyword sequence, the output collection contains no two articles with
equal `normalized_url`. -/
theorem claim1_dedup_no_duplicate_urls (fetch : String → Except String (List Entry))
    (now : String) (m : Nat) (fr : Bool) (ks : List String) :
    (runCrawl fetch now m fr true ks).Pairwise
      (fun a b => a.normalized_url ≠ b.normalized_url) := by
  have base : ((processArticles true (candidates fetch now m ks) [] []).1.map
      Article.normalized_url).Nodup :=
    processArticles_nodup _ [] [] (by simp) (by simp)
  rw [runCrawl_eq]
  cases fr with
  | false => exact pairwise_ne_of_nodup_map base
  | true =>
    simp only [if_pos rfl]
    apply pairwise_ne_of_nodup_map
    have hsub : (filter_relevant_news
        (processArticles true (candidates fetch now m ks) [] []).1).map
          Article.normalized_url |>.Sublist
        ((processArticles true (candidates fetch now m ks) [] []).1.map
          Article.normalized_url) :=
      List.Sublist.map _ (List.filter_sublist _)
    exact List.Nodup.sublist hsub base

/-- C2: with dedup enabled, when keyword `K` precedes keyword `Kp` in
the run order, both fetch a candidate at normalized URL `u`, and no
keyword before `K` does, then any surviving article at `u` carries
`keyword = K` (first-wins); moreover the output is always a subsequence
of the candidate stream in fetch order (keyword order outer, per-keyword
arrival order inner). -/
theorem claim2_first_keyword_wins :
    (∀ (fetch : String → Except String (List Entry)) (now : String) (m : Nat)
        (fr : Bool) (ks1 : List String) (K : String) (ks2 : List String)
        (Kp : String) (ks3 : List String) (u : String) (a : Article),
      (∀ k ∈ ks1, ∀ c ∈ search_news fetch now k m, c.normalized_url ≠ u) →
      (∃ c ∈ search_news fetch now K m, c.normalized_url = u) →
      (∃ c ∈ search_news fetch now Kp m, c.normalized_url = u) →
      a ∈ runCrawl fetch now m fr true (ks1 ++ (K :: (ks2 ++ (Kp :: ks3)))) →
      a.normalized_url = u →
      a.keyword = K) ∧
    (∀ (fetch : String → Except String (List Entry)) (now : String) (m : Nat)
        (fr : Bool) (ks : List String),
      (runCrawl fetch now m fr true ks).Sublist (candidates fetch now m ks)) := by
  constructor
  · intro fetch now m fr ks1 K ks2 Kp ks3 u a hks1 hK hKp ha hau
    have hbase : a ∈ (processArticles true
        (candidates fetch now m (ks1 ++ (K :: (ks2 ++ (Kp :: ks3))))) [] []).1 := by
      rw [runCrawl_eq] at ha
      cases fr with
      | false => exact ha
      | true =>
        simp only [if_pos rfl] at ha
        exact (List.mem_filter.1 ha).1
    obtain ⟨-, hfind⟩ := processArticles_find? _ [] a hbase
    have hdec : candidates fetch now m (ks1 ++ (K :: (ks2 ++ (Kp :: ks3)))) =
        candidates fetch now m ks1 ++
          (search_news fetch now K m ++ candidates fetch now m (ks2 ++ (Kp :: ks3))) := by
      unfold candidates
      rw [List.flatMap_append, List.flatMap_cons]
    rw [hdec] at hfind
    have h1 : ∀ c ∈ candidates fetch now m ks1,
        (fun c => c.normalized_url == a.normalized_url) c = false := by
      intro c hcmem
      obtain ⟨k, hk, hcf⟩ := List.mem_flatMap.1 hcmem
      simp only [beq_eq_false_iff_ne, ne_eq]
      rw [hau]
      exact hks1 k hk c hcf
    rw [find?_append_left_none h1] at hfind
    have h2 : ∃ x ∈ search_news fetch now K m,
        (fun c => c.normalized_url == a.normalized_url) x = true := by
      obtain ⟨c, hcm, hcu⟩ := hK
      exact ⟨c, hcm, by simp [hcu, hau]⟩
    rw [find?_append_left_found h2] at hfind
    exact search_news_keyword fetch now K m a (List.mem_of_find?_eq_some hfind)
  · intro fetch now m fr ks
    rw [runCrawl_eq]
    have base := processArticles_sublist true (candidates fetch now m ks) []
    cases fr with
    | false => exact base
    | true =>
      simp only [if_pos rfl]
      exact (List.filter_sublist _).trans base

/-- C2 witness: the spec scenario — keywords `["A","B"]`, `A` yields
`[u1,u2]`, `B` yields `[u2,u3]` at the same normalized URL for `u2` —
gives `[u1(A), u2(A), u3(B)]`, with `u2` attributed to `A`. -/
theorem claim2_first_keyword_wins_witness :
    runCrawl fetchAB "T" 30 false true ["A", "B"] =
      [mkArticle "T" "A" e1, mkArticle "T" "A" e2, mkArticle "T" "B" e3] ∧
    (mkArticle "T" "A" e2).keyword = "A" := by
  constructor
  · rfl
  · exact claim2_first_keyword_wins.1 fetchAB "T" 30 false [] "A" [] "B" [] "s.com/u2"
      (mkArticle "T" "A" e2)
      (by intro k hk; simp at hk)
      ⟨mkArticle "T" "A" e2, by decide, by decide⟩
      ⟨mkArticle "T" "B" e2dup, by decide, by decide⟩
      (by decide)
      (by decide)

/-- C3: at the failing input (zero articles pass the view filters) the
code's page count `(len + items_per_page - 1) // items_per_page` is `0`,
not the claimed minimum of `1`: a concrete view over a nonempty session
collection whose search term matches nothing reports zero pages. -/
theorem claim3_total_pages_zero_when_empty :
    (viewBlock heap0 0 paramsNoMatch).2.2 = 0 ∧ totalPages 0 items_per_page = 0 := by
  refine ⟨?_, rfl⟩
  decide

/-- C6: a failed fetch for one keyword degrades to zero candidates
(`search_news` returns `[]` rather than propagating the error), and the
run over the remaining keywords is unchanged: aggregation with the
failing keyword equals aggregation without it. -/
theorem claim6_fetch_failure_degrades (fetch : String → Except String (List Entry))
    (now : String) (m : Nat) (fr d : Bool) (ks1 ks2 : List String) (kbad e : String)
    (h : fetch (search_url kbad) = .error e) :
    search_news fetch now kbad m = [] ∧
    runCrawl fetch now m fr d (ks1 ++ kbad :: ks2) = runCrawl fetch now m fr d (ks1 ++ ks2) := by
  have hs : search_news fetch now kbad m = [] := by
    unfold search_news
    rw [h]
  refine ⟨hs, ?_⟩
  unfold runCrawl
  have hfold : (ks1 ++ kbad :: ks2).foldl
      (fun st kw => processArticles d (search_news fetch now kw m) st.1 st.2)
      (([] : List Article), ([] : List String)) =
      (ks1 ++ ks2).foldl
      (fun st kw => processArticles d (search_news fetch now kw m) st.1 st.2)
      (([] : List Article), ([] : List String)) := by
    rw [List.foldl_append, List.foldl_append, List.foldl_cons]
    congr 1
    show processArticles d (search_news fetch now kbad m) _ _ = _
    rw [hs]
    rfl
  rw [hfold]

/-- C6 witness: with a boundary failing for keyword `X`, `search_news`
yields `[]` for `X` and the run over `["A","X"]` equals the run over
`["A"]`. -/
theorem claim6_fetch_failure_degrades_witness :
    search_news fetchXFail "T" "X" 30 = [] ∧
    runCrawl fetchXFail "T" 30 false true ["A", "X"] =
      runCrawl fetchXFail "T" 30 false true ["A"] :=
  claim6_fetch_failure_degrades fetchXFail "T" 30 false true ["A"] [] "X" "boom" rfl

/-- C5 counterexample: the term `동반성장` is a substring of the
concatenation of title and summary of `artConcatBoundary`, but the code
drops the article — the code tests title and summary separately, not
their concatenation. -/
theorem claim5_concat_counterexample :
    artConcatBoundary ∉ filter_relevant_news [artConcatBoundary] ∧
    (∃ kw ∈ relevant_keywords,
      pyIn kw (pyLower (artConcatBoundary.title ++ artConcatBoundary.summary)) = true) := by
  constructor
  · decide
  · exact ⟨"동반성장", by decide, by decide⟩

/-- C5 amended: the relevance filter retains an article iff some
built-in term occurs in the lower-cased title or in the lower-cased
summary; an article with empty summary is judged on its title alone. -/
theorem claim5_relevance_title_or_summary (articles : List Article) (a : Article) :
    (a ∈ filter_relevant_news articles ↔
      a ∈ articles ∧ ∃ kw ∈ relevant_keywords,
        (pyIn kw (pyLower a.title) = true ∨ pyIn kw (pyLower a.summary) = true)) ∧
    (a.summary = "" →
      (a ∈ filter_relevant_news articles ↔
        a ∈ articles ∧ ∃ kw ∈ relevant_keywords, pyIn kw (pyLower a.title) = true)) := by
  have hmain : a ∈ filter_relevant_news articles ↔
      a ∈ articles ∧ ∃ kw ∈ relevant_keywords,
        (pyIn kw (pyLower a.title) = true ∨ pyIn kw (pyLower a.summary) = true) := by
    unfold filter_relevant_news
    rw [List.mem_filter]
    constructor
    · rintro ⟨hm, hrel⟩
      refine ⟨hm, ?_⟩
      unfold isRelevantArticle at hrel
      obtain ⟨kw, hkw, hor⟩ := List.any_eq_true.1 hrel
      exact ⟨kw, hkw, by simpa using hor⟩
    · rintro ⟨hm, kw, hkw, hor⟩
      refine ⟨hm, ?_⟩
      unfold isRelevantArticle
      exact List.any_eq_true.2 ⟨kw, hkw, by simpa using hor⟩
  refine ⟨hmain, ?_⟩
  intro hsum
  rw [hmain]
  constructor
  · rintro ⟨hm, kw, hkw, hor⟩
    refine ⟨hm, kw, hkw, ?_⟩
    rcases hor with ht | hsm
    · exact ht
    · exfalso
      rw [hsum] at hsm
      have hnone : ∀ kw ∈ relevant_keywords, pyIn kw (pyLower "") = false := by decide
      rw [hnone kw hkw] at hsm
      exact Bool.false_ne_true hsm
  · rintro ⟨hm, kw, hkw, ht⟩
    exact ⟨hm, kw, hkw, Or.inl ht⟩

/-- C5 witness: the spec's scenario article (summary match) is retained,
and an article with empty summary is retained on its title alone. -/
theorem claim5_relevance_title_or_summary_witness :
    artTitleSummary ∈ filter_relevant_news [artTitleSummary] ∧
    artTitleOnly ∈ filter_relevant_news [artTitleOnly] := by
  constructor
  · exact (claim5_relevance_title_or_summary [artTitleSummary] artTitleSummary).1.mpr
      ⟨List.mem_cons_self _ _, "동반성장", by decide, Or.inr (by decide)⟩
  · exact ((claim5_relevance_title_or_summary [artTitleOnly] artTitleOnly).2 rfl).mpr
      ⟨List.mem_cons_self _ _, "대기업", by decide, by decide⟩

/-- C7 counterexample: `search_news` in `TEST.py` interpolates the raw
keyword into the feed URL — for keyword `"a b"` the URL carries the raw
text, not the percent-encoded form `a%20b`. -/
theorem claim7_raw_keyword_counterexample :
    search_url "a b" = "https://news.google.com/rss/search?q=a b&hl=ko&gl=KR&ceid=KR:ko" ∧
    pyQuote "a b" = "a%20b" ∧
    search_url "a b" ≠
      "https://news.google.com/rss/search?q=" ++ pyQuote "a b" ++ "&hl=ko&gl=KR&ceid=KR:ko" := by
  refine ⟨rfl, rfl, ?_⟩
  decide

/-- C10: with dedup and filtering both enabled, the irrelevant candidate
from keyword `A` claims the URL during the dedup pass, so the relevant
candidate from keyword `B` at the same normalized URL never reaches the
relevance filter: the run yields nothing, although the `B` candidate is
fetched, matches the relevance terms, and survives when dedup is off. -/
theorem claim10_dedup_claims_url_before_filter :
    runCrawl fetchDup "T" 30 true true ["A", "B"] = [] ∧
    mkArticle "T" "B" eRelevantB ∈ search_news fetchDup "T" "B" 30 ∧
    isRelevantArticle (mkArticle "T" "B" eRelevantB) = true ∧
    (mkArticle "T" "B" eRelevantB).normalized_url =
      (mkArticle "T" "A" eIrrelevantA).normalized_url ∧
    isRelevantArticle (mkArticle "T" "A" eIrrelevantA) = false ∧
    runCrawl fetchDup "T" 30 true false ["A", "B"] = [mkArticle "T" "B" eRelevantB] := by
  refine ⟨rfl, ?_, rfl, rfl, rfl, rfl⟩
  decide

/-! ## Percent-encoding lemmas for C7 -/

theorem char_toNat_lt (c : Char) : c.toNat < 1114112 := by
  have h := c.valid
  simp [UInt32.isValidChar, Nat.isValidChar, Char.toNat] at *
  omega

theorem charOfNat_toNat {b : Nat} (h : b < 55296) : (Char.ofNat b).toNat = b := by
  simp [Char.ofNat, Nat.isValidChar, h, Char.toNat, Char.ofNatAux]
  rfl

theorem or_lt_256 {x y : Nat} (hx : x < 256) (hy : y < 256) : x ||| y < 256 := by
  have e : (256 : Nat) = 2 ^ 8 := by norm_num
  rw [e] at hx hy ⊢
  exact Nat.or_lt_two_pow hx hy

theorem utf8Bytes_lt (c : Char) : ∀ b ∈ utf8Bytes c, b < 256 := by
  intro b hb
  have hc := char_toNat_lt c
  have hs6 : c.toNat >>> 6 = c.toNat / 64 := by
    rw [Nat.shiftRight_eq_div_pow]
  have hs12 : c.toNat >>> 12 = c.toNat / 4096 := by
    rw [Nat.shiftRight_eq_div_pow]
  have hs18 : c.toNat >>> 18 = c.toNat / 262144 := by
    rw [Nat.shiftRight_eq_div_pow]
  have hm1 : c.toNat &&& 63 ≤ 63 := Nat.and_le_right
  have hm2 : (c.toNat >>> 6) &&& 63 ≤ 63 := Nat.and_le_right
  have hm3 : (c.toNat >>> 12) &&& 63 ≤ 63 := Nat.and_le_right
  unfold utf8Bytes at hb
  by_cases h1 : c.toNat < 128
  · rw [if_pos h1] at hb
    simp only [List.mem_singleton] at hb
    omega
  · rw [if_neg h1] at hb
    by_cases h2 : c.toNat < 2048
    · rw [if_pos h2] at hb
      simp only [List.mem_cons, List.not_mem_nil, or_false] at hb
      rcases hb with rfl | rfl
      · exact or_lt_256 (by omega) (by rw [hs6]; omega)
      · exact or_lt_256 (by omega) (by omega)
    · rw [if_neg h2] at hb
      by_cases h3 : c.toNat < 65536
      · rw [if_pos h3] at hb
        simp only [List.mem_cons, List.not_mem_nil, or_false] at hb
        rcases hb with rfl | rfl | rfl
        · exact or_lt_256 (by omega) (by rw [hs12]; omega)
        · exact or_lt_256 (by omega) (by omega)
        · exact or_lt_256 (by omega) (by omega)
      · rw [if_neg h3] at hb
        simp only [List.mem_cons, List.not_mem_nil, or_false] at hb
        rcases hb with rfl | rfl | rfl | rfl
        · exact or_lt_256 (by omega) (by rw [hs18]; omega)
        · exact or_lt_256 (by omega) (by omega)
        · exact or_lt_256 (by omega) (by omega)
        · exact or_lt_256 (by omega) (by omega)

theorem quoteSafeByte_le {b : Nat} (h : quoteSafeByte b = true) : b ≤ 126 := by
  unfold quoteSafeByte at h
  simp only [Bool.or_eq_true, Bool.and_eq_true, decide_eq_true_eq] at h
  omega

theorem hexUpper_ok : ∀ x, x < 16 → quoteOutputChar (hexUpper x) = true := by decide

theorem quoteByte_chars (b : Nat) (hb : b < 256) :
    ∀ c ∈ quoteByte b, quoteOutputChar c = true := by
  intro c hc
  unfold quoteByte at hc
  by_cases hs : quoteSafeByte b = true
  · rw [if_pos hs] at hc
    simp only [List.mem_singleton] at hc
    subst hc
    have hle := quoteSafeByte_le hs
    have ht : (Char.ofNat b).toNat = b := charOfNat_toNat (by omega)
    unfold quoteOutputChar
    rw [ht, hs]
    simp
  · rw [if_neg hs] at hc
    simp only [List.mem_cons, List.not_mem_nil, or_false] at hc
    rcases hc with rfl | rfl | rfl
    · decide
    · exact hexUpper_ok (b / 16) (by omega)
    · exact hexUpper_ok (b % 16) (by omega)

/-- C7 amended: `get_google_news_rss_url` of `PAGES/TEST2.py` places the
percent-encoded keyword in the `q=` component, and every character of
the encoded keyword is a safe byte, `%`, or a hex digit (so no unsafe
raw text survives); `search_news` of `TEST.py`, by contrast, builds its
feed URL from the raw keyword with no encoding. -/
theorem claim7_query_encoding :
    (∀ (query hl gl : String) (n : Nat),
      get_google_news_rss_url query hl gl n =
        "https://news.google.com/rss/search" ++
          ("?q=" ++ pyQuote query ++ "&hl=" ++ hl ++ "&gl=" ++ gl ++
           "&ceid=" ++ gl ++ ":" ++ hl ++ "&num=" ++ toString n)) ∧
    (∀ query : String, ∀ c ∈ (pyQuote query).data, quoteOutputChar c = true) ∧
    (∀ k : String, search_url k =
      "https://news.google.com/rss" ++ "/search?q=" ++ k ++ "&hl=ko&gl=KR&ceid=KR:ko") := by
  refine ⟨fun _ _ _ _ => rfl, ?_, fun _ => rfl⟩
  intro q c hc
  have hc2 : c ∈ (q.data.flatMap utf8Bytes).flatMap quoteByte := hc
  obtain ⟨b, hb, hcq⟩ := List.mem_flatMap.1 hc2
  obtain ⟨ch, hch, hbch⟩ := List.mem_flatMap.1 hb
  exact quoteByte_chars b (utf8Bytes_lt ch b hbch) c hcq

/-! ## Filter commutation lemmas for C8 -/

theorem search_keyword_comm (s kf : String) (l : List Article) :
    applySearch s (applyKeyword kf l) = applyKeyword kf (applySearch s l) := by
  unfold applySearch applyKeyword
  by_cases h1 : s ≠ "" <;> by_cases h2 : kf ≠ "전체" <;>
    (simp [h1, h2]; try exact List.filter_congr fun x _ => Bool.and_comm _ _)

theorem search_source_comm (s sf : String) (l : List Article) :
    applySearch s (applySource sf l) = applySource sf (applySearch s l) := by
  unfold applySearch applySource
  by_cases h1 : s ≠ "" <;> by_cases h2 : sf ≠ "전체" <;>
    (simp [h1, h2]; try exact List.filter_congr fun x _ => Bool.and_comm _ _)

theorem keyword_source_comm (kf sf : String) (l : List Article) :
    applyKeyword kf (applySource sf l) = applySource sf (applyKeyword kf l) := by
  unfold applyKeyword applySource
  by_cases h1 : kf ≠ "전체" <;> by_cases h2 : sf ≠ "전체" <;>
    (simp [h1, h2]; try exact List.filter_congr fun x _ => Bool.and_comm _ _)

/-- C8: the three view filters (search term, keyword, source) applied in
any evaluation order give the same collection as the code's order
search → keyword → source. -/
theorem claim8_filter_order_independent (l : List Article) (s kf sf : String) :
    applyKeyword kf (applySource sf (applySearch s l)) = applyFilters s kf sf l ∧
    applySource sf (applySearch s (applyKeyword kf l)) = applyFilters s kf sf l ∧
    applyKeyword kf (applySearch s (applySource sf l)) = applyFilters s kf sf l ∧
    applySearch s (applySource sf (applyKeyword kf l)) = applyFilters s kf sf l ∧
    applySearch s (applyKeyword kf (applySource sf l)) = applyFilters s kf sf l := by
  unfold applyFilters
  refine ⟨?_, ?_, ?_, ?_, ?_⟩
  · rw [keyword_source_comm]
  · rw [search_keyword_comm]
  · rw [search_source_comm, keyword_source_comm]
  · rw [search_source_comm, search_keyword_comm]
  · rw [search_keyword_comm, search_source_comm, keyword_source_comm]

/-! ## Heap lemmas for C9 -/

theorem hget_halloc (h : Heap) (v : List Article) (q : Nat) (hq : q < h.length) :
    hget (halloc h v).1 q = hget h q := by
  unfold hget halloc
  rw [List.getD_eq_getElem?_getD, List.getD_eq_getElem?_getD, List.getElem?_append,
    if_pos hq]

theorem hget_hset_ne (h : Heap) (rp : Nat) (v : List Article) (q : Nat) (hne : rp ≠ q) :
    hget (hset h rp v) q = hget h q := by
  unfold hget hset
  rw [List.getD_eq_getElem?_getD, List.getD_eq_getElem?_getD, List.getElem?_set_ne hne]

theorem halloc_len (h : Heap) (v : List Article) :
    h.length ≤ (halloc h v).1.length := by
  simp [halloc]

theorem halloc_ref (h : Heap) (v : List Article) {n : Nat} (hn : n ≤ h.length) :
    n ≤ (halloc h v).2 := hn

theorem condAlloc_hget (cond : Bool) (h : Heap) (r : Nat) (v : List Article)
    (q : Nat) (hq : q < h.length) :
    hget (condAlloc cond h r v).1 q = hget h q := by
  cases cond with
  | false => rfl
  | true => exact hget_halloc h v q hq

theorem condAlloc_len (cond : Bool) (h : Heap) (r : Nat) (v : List Article) :
    h.length ≤ (condAlloc cond h r v).1.length := by
  cases cond with
  | false => exact Nat.le_refl _
  | true => exact halloc_len h v

theorem condAlloc_ref (cond : Bool) (h : Heap) (r : Nat) (v : List Article)
    {n : Nat} (hr : n ≤ r) (hlen : n ≤ h.length) :
    n ≤ (condAlloc cond h r v).2 := by
  cases cond with
  | false => exact hr
  | true => exact hlen

/-- C9: rendering the view (filters, in-place sort of the copy,
pagination) leaves the session collection unchanged: the list object the
session reference points to reads the same after the view as before. -/
theorem claim9_view_preserves_collection (h : Heap) (newsRef : Nat) (p : ViewParams)
    (hr : newsRef < h.length) :
    hget (viewBlock h newsRef p).1 newsRef = hget h newsRef := by
  simp only [viewBlock]
  refine (hget_hset_ne _ _ _ _ ?_).trans ?_
  · -- the sorted-in-place object is a fresh allocation, not the session list
    refine Nat.ne_of_gt (Nat.lt_of_lt_of_le hr ?_)
    apply condAlloc_ref
    · apply condAlloc_ref
      · apply condAlloc_ref
        · exact halloc_ref h _ (Nat.le_refl _)
        · exact halloc_len h _
      · exact Nat.le_trans (halloc_len h _) (condAlloc_len _ _ _ _)
    · exact Nat.le_trans (Nat.le_trans (halloc_len h _) (condAlloc_len _ _ _ _))
        (condAlloc_len _ _ _ _)
  · refine (condAlloc_hget _ _ _ _ _ ?_).trans
      ((condAlloc_hget _ _ _ _ _ ?_).trans
        ((condAlloc_hget _ _ _ _ _ ?_).trans (hget_halloc h _ _ hr)))
    · exact Nat.lt_of_lt_of_le hr
        (Nat.le_trans (Nat.le_trans (halloc_len h _) (condAlloc_len _ _ _ _))
          (condAlloc_len _ _ _ _))
    · exact Nat.lt_of_lt_of_le hr (Nat.le_trans (halloc_len h _) (condAlloc_len _ _ _ _))
    · exact Nat.lt_of_lt_of_le hr (halloc_len h _)

/-- C9 witness: a concrete session heap read through a concrete view. -/
theorem claim9_view_preserves_collection_witness :
    hget (viewBlock heap0 0 params0).1 0 = hget heap0 0 ∧
    hget heap0 0 = [artTitleOnly, artTitleSummary] :=
  ⟨claim9_view_preserves_collection heap0 0 params0 (by decide), rfl⟩

/-! ## URL-parsing lemmas for C4 -/

theorem splitOnFirst_of_not_mem {c : Char} {a : List Char} (h : ∀ x ∈ a, x ≠ c) :
    ∀ b, splitOnFirst c (a ++ c :: b) = some (a, b) := by
  induction a with
  | nil => intro b; simp [splitOnFirst]
  | cons y a' ih =>
    intro b
    have hy : y ≠ c := h y (List.mem_cons_self _ _)
    simp only [List.cons_append, splitOnFirst, if_neg hy, List.append_eq,
      ih (fun x hx => h x (List.mem_cons_of_mem _ hx)) b]

theorem takeWhile_all {p : Char → Bool} {a b : List Char}
    (h1 : ∀ x ∈ a, p x = true) (h2 : ∀ x l2, b = x :: l2 → p x = false) :
    (a ++ b).takeWhile p = a ∧ (a ++ b).dropWhile p = b := by
  induction a with
  | nil =>
    cases b with
    | nil => simp
    | cons x l2 =>
      have hx := h2 x l2 rfl
      simp [List.takeWhile_cons, List.dropWhile_cons, hx]
  | cons y a' ih =>
    have hy := h1 y (List.mem_cons_self _ _)
    obtain ⟨ht, hd⟩ := ih (fun x hx => h1 x (List.mem_cons_of_mem _ hx))
    simp [List.takeWhile_cons, List.dropWhile_cons, hy, ht, hd]

theorem contains_false_of {α : Type} [BEq α] [LawfulBEq α] {l : List α} {a : α}
    (h : a ∉ l) : l.contains a = false := by
  rw [← Bool.not_eq_true]
  intro hc
  exact h (List.elem_iff.mp hc)

theorem asciiAlpha_not_c0 {c : Char} (h : asciiAlpha c = true) : c0OrSpace c = false := by
  unfold asciiAlpha at h
  unfold c0OrSpace
  simp only [Bool.or_eq_true, Bool.and_eq_true, decide_eq_true_eq] at h
  simp only [decide_eq_false_iff_not]
  omega

/-- C4: `normalize_url` is total by construction (a total function of its
input); on a URL of the canonical shape `scheme://host/path?query#frag`
with an ASCII host it returns `host ++ path`, dropping scheme, query
string and fragment; and whenever `urlparse` fails (the `ValueError`
branch) the input comes back unchanged.  The host is required to be
ASCII because CPython's NFKC netloc validation — not modelled here —
returns immediately on ASCII netlocs, so on every URL this theorem
covers the embedding agrees with `urllib.parse.urlparse` exactly. -/
theorem claim4_normalize_url_spec :
    (∀ (scheme host path query frag : String),
      (∃ c l, scheme.data = c :: l ∧ asciiAlpha c = true) →
      (∀ c ∈ scheme.data, isSchemeChar c = true) →
      (∀ c ∈ host.data, notDelim c = true ∧ c ≠ '[' ∧ c ≠ ']' ∧ c.toNat < 128) →
      (path.data = [] ∨ ∃ l, path.data = '/' :: l) →
      (∀ c ∈ path.data, c ≠ '#' ∧ c ≠ '?' ∧ c ≠ ';') →
      (∀ c ∈ query.data, c ≠ '#') →
      (∀ c ∈ (scheme ++ "://" ++ host ++ path ++ "?" ++ query ++ "#" ++ frag).data,
        c0OrSpace c = false ∧ isTabCrLf c = false) →
      normalize_url (scheme ++ "://" ++ host ++ path ++ "?" ++ query ++ "#" ++ frag) =
        host ++ path) ∧
    (∀ (url : String) (e : String), pyUrlparse url = .error e → normalize_url url = url) := by
  constructor
  · intro scheme host path query frag hhead hscheme hhost hpathHead hpath hquery hclean
    obtain ⟨sd⟩ := scheme
    obtain ⟨hd⟩ := host
    obtain ⟨pd⟩ := path
    obtain ⟨qd⟩ := query
    obtain ⟨fd⟩ := frag
    obtain ⟨c0, l0, hsd, halpha⟩ := hhead
    have hsd : sd = c0 :: l0 := hsd
    subst hsd
    -- the scalar-value list of the assembled URL
    have hdata : ((⟨c0 :: l0⟩ ++ "://" ++ ⟨hd⟩ ++ ⟨pd⟩ ++ "?" ++ ⟨qd⟩ ++ "#" ++ ⟨fd⟩ :
        String)).data =
        c0 :: (l0 ++ ':' :: '/' :: '/' :: (hd ++ (pd ++ '?' :: (qd ++ '#' :: fd)))) := by
      simp [String.data_append]
    have hcleanL : ∀ x ∈ c0 :: (l0 ++ ':' :: '/' :: '/' ::
        (hd ++ (pd ++ '?' :: (qd ++ '#' :: fd)))), c0OrSpace x = false ∧
          isTabCrLf x = false := by
      intro x hx
      apply hclean
      rw [hdata]
      exact hx
    -- step 1: the WHATWG strip and the tab/CR/LF removal are no-ops here
    have hstrip : ((c0 :: (l0 ++ ':' :: '/' :: '/' ::
        (hd ++ (pd ++ '?' :: (qd ++ '#' :: fd))))).dropWhile c0OrSpace).filter
          (fun c => !isTabCrLf c) =
        c0 :: (l0 ++ ':' :: '/' :: '/' :: (hd ++ (pd ++ '?' :: (qd ++ '#' :: fd)))) := by
      rw [List.dropWhile_cons, if_neg (by simp [asciiAlpha_not_c0 halpha])]
      rw [List.filter_eq_self]
      intro x hx
      simp [(hcleanL x hx).2]
    -- step 2: scheme detection strips `scheme:`
    have hsplitc : splitOnFirst ':' ((c0 :: l0) ++ ':' ::
        ('/' :: '/' :: (hd ++ (pd ++ '?' :: (qd ++ '#' :: fd))))) =
        some (c0 :: l0, '/' :: '/' :: (hd ++ (pd ++ '?' :: (qd ++ '#' :: fd)))) := by
      apply splitOnFirst_of_not_mem
      intro x hx he
      have hsc := hscheme x hx
      subst he
      exact absurd hsc (by decide)
    have hschemeSplit : splitScheme (c0 :: (l0 ++ ':' :: '/' :: '/' ::
        (hd ++ (pd ++ '?' :: (qd ++ '#' :: fd))))) =
        ((c0 :: l0).map pyLowerChar, '/' :: '/' :: (hd ++ (pd ++ '?' :: (qd ++ '#' :: fd)))) := by
      unfold splitScheme
      have heq : (c0 :: l0) ++ ':' :: ('/' :: '/' :: (hd ++ (pd ++ '?' :: (qd ++ '#' :: fd)))) =
          c0 :: (l0 ++ ':' :: '/' :: '/' :: (hd ++ (pd ++ '?' :: (qd ++ '#' :: fd)))) := by
        simp
      have hcond : (asciiAlpha c0 && (c0 :: l0).all isSchemeChar) = true := by
        rw [halpha, Bool.true_and, List.all_eq_true]
        intro x hx
        exact hscheme x hx
      rw [← heq, hsplitc]
      simp
      exact ⟨halpha, hscheme c0 (List.mem_cons_self _ _),
        fun x hx => hscheme x (List.mem_cons_of_mem _ hx)⟩
    -- step 3: netloc extraction
    have hbody := takeWhile_all (p := notDelim) (a := hd)
      (b := pd ++ '?' :: (qd ++ '#' :: fd))
      (fun x hx => (hhost x hx).1)
      (by
        intro x l2 hb
        rcases hpathHead with hnil | ⟨l, hl⟩
        · subst hnil
          simp only [List.nil_append, List.cons.injEq] at hb
          rw [← hb.1]
          decide
        · subst hl
          simp only [List.cons_append, List.cons.injEq] at hb
          rw [← hb.1]
          decide)
    have hnet : splitNetloc ('/' :: '/' :: (hd ++ (pd ++ '?' :: (qd ++ '#' :: fd)))) =
        (hd, pd ++ '?' :: (qd ++ '#' :: fd)) := by
      show (if ('/' : Char) = '/' ∧ ('/' : Char) = '/' then
          ((hd ++ (pd ++ '?' :: (qd ++ '#' :: fd))).takeWhile notDelim,
           (hd ++ (pd ++ '?' :: (qd ++ '#' :: fd))).dropWhile notDelim)
        else ([], '/' :: '/' :: (hd ++ (pd ++ '?' :: (qd ++ '#' :: fd))))) = _
      rw [if_pos ⟨rfl, rfl⟩, hbody.1, hbody.2]
    -- step 4: no mismatched bracket
    have hbr1 : hd.contains '[' = false :=
      contains_false_of (fun hm => (hhost _ hm).2.1 rfl)
    have hbr2 : hd.contains ']' = false :=
      contains_false_of (fun hm => (hhost _ hm).2.2.1 rfl)
    -- step 5: fragment and query splits
    have hfrag : splitOnFirst '#' ((pd ++ '?' :: qd) ++ '#' :: fd) =
        some (pd ++ '?' :: qd, fd) := by
      apply splitOnFirst_of_not_mem
      intro x hx
      rcases List.mem_append.1 hx with hx | hx
      · exact (hpath x hx).1
      · rcases List.mem_cons.1 hx with rfl | hx
        · decide
        · exact hquery x hx
    have hq : splitOnFirst '?' (pd ++ '?' :: qd) = some (pd, qd) :=
      splitOnFirst_of_not_mem (fun x hx => (hpath x hx).2.1) qd
    -- step 6: no params split (no `;` in the path)
    have hsemi : pd.contains ';' = false :=
      contains_false_of (fun hm => (hpath _ hm).2.2 rfl)
    -- assemble
    have hsplit : urlsplitChars ((⟨c0 :: l0⟩ ++ "://" ++ ⟨hd⟩ ++ ⟨pd⟩ ++ "?" ++ ⟨qd⟩ ++
        "#" ++ ⟨fd⟩ : String)).data =
        .ok ⟨(c0 :: l0).map pyLowerChar, hd, pd, qd, fd⟩ := by
      have hfrag2 : splitOnFirst '#' (pd ++ '?' :: (qd ++ '#' :: fd)) =
          some (pd ++ '?' :: qd, fd) := by
        rw [show pd ++ '?' :: (qd ++ '#' :: fd) = (pd ++ '?' :: qd) ++ '#' :: fd by simp]
        exact hfrag
      rw [hdata]
      unfold urlsplitChars
      rw [hstrip]
      simp [hschemeSplit, hnet, hfrag2, hq, hbr1, hbr2]
      constructor
      · intro hm
        exact absurd rfl ((hhost _ hm).2.1)
      · intro hm
        exact absurd rfl ((hhost _ hm).2.2.1)
    have hparse : pyUrlparse (⟨c0 :: l0⟩ ++ "://" ++ ⟨hd⟩ ++ ⟨pd⟩ ++ "?" ++ ⟨qd⟩ ++
        "#" ++ ⟨fd⟩ : String) =
        .ok ⟨(c0 :: l0).map pyLowerChar, hd, pd, qd, fd⟩ := by
      unfold pyUrlparse
      rw [hsplit]
      simp [hsemi]
      intro hm1 hm2
      exact absurd rfl ((hpath _ hm2).2.2)
    unfold normalize_url
    rw [hparse]
    rfl
  · intro url e h
    unfold normalize_url
    rw [h]

/-- C4 witness: a canonical URL normalizes to host+path; the mismatched
IPv6 bracket makes `urlparse` fail and the input comes back unchanged. -/
theorem claim4_normalize_url_spec_witness :
    normalize_url "https://example.com/news?utm=1#top" = "example.com/news" ∧
    normalize_url "http://[::1" = "http://[::1" := by
  constructor
  · exact claim4_normalize_url_spec.1 "https" "example.com" "/news" "utm=1" "top"
      ⟨'h', "ttps".data, rfl, by decide⟩ (by decide) (by decide)
      (Or.inr ⟨"news".data, rfl⟩) (by decide) (by decide) (by decide)
  · exact claim4_normalize_url_spec.2 "http://[::1" "Invalid IPv6 URL" rfl

end News
